import Mathlib

/-!
Verification of the type-inference and table-materialization engine of the
`file_to_database_table` repository, as a shallow embedding in Lean 4.

The embedding covers (ASCII character model; the GUI layer is out of scope):
  * `sanitize_name`   — src/src/utils.py, lines 87–115
  * `infer_column_type` — src/src/file_processor.py, lines 52–108
  * `create_table_from_dataframe` — src/src/database.py, lines 69–149
  * the CSV reading path of `get_dataframes` — src/src/file_processor.py, lines 19–28
-/

/-! ## Character classes (ASCII model of the Python predicates used by the source) -/

/-- ASCII whitespace, the model of the characters matched by Python's
regex class backslash-s and by `str.strip()` (source cells are ASCII text). -/
def isSpaceChar (c : Char) : Bool :=
  c == ' ' || c == '\t' || c == '\n' || c == '\r' || c == '\x0b' || c == '\x0c'

/-- Lowercase ASCII letter. -/
def isLowerAlpha (c : Char) : Bool := 'a' ≤ c && c ≤ 'z'

/-- ASCII decimal digit: the model of Python's `str.isdigit()` on ASCII input. -/
def isDigitChar (c : Char) : Bool := '0' ≤ c && c ≤ '9'

/-- Characters kept by the sanitizer's character filter `[^a-z0-9_]` removal. -/
def isAllowedChar (c : Char) : Bool := isLowerAlpha c || isDigitChar c || c == '_'

/-- ASCII model of Python's `str.lower()` applied characterwise. -/
def toLowerChar (c : Char) : Char :=
  if 'A' ≤ c && c ≤ 'Z' then Char.ofNat (c.toNat + 32) else c

/-! ## Identifier sanitizer — src/src/utils.py `sanitize_name` -/

/-- Model of `re.sub(r'\s+', '_', name)`: each maximal run of whitespace
becomes a single underscore.  The Boolean records whether the previous
character was whitespace (i.e. whether we are inside a run). -/
def collapseWsAux : Bool → List Char → List Char
  | _, [] => []
  | prevWs, c :: rest =>
    if isSpaceChar c then
      if prevWs then collapseWsAux true rest else '_' :: collapseWsAux true rest
    else c :: collapseWsAux false rest

/-- Model of Python `name.strip('_')`: drop leading and trailing underscores. -/
def stripUnderscores (l : List Char) : List Char :=
  (((l.dropWhile (· == '_')).reverse.dropWhile (· == '_'))).reverse

/-- Steps 1–4 of `sanitize_name` on the character list: lowercase, collapse
whitespace runs to `_`, remove characters outside `[a-z0-9_]`, strip
leading/trailing underscores. -/
def sanitizeStrip (l : List Char) : List Char :=
  stripUnderscores ((collapseWsAux false (l.map toLowerChar)).filter isAllowedChar)

/-- Step 5 of `sanitize_name`: prepend `col_` when the name starts with a
digit (`if name and name[0].isdigit(): name = 'col_' + name`). -/
def sanitizePrepend : List Char → List Char
  | c :: rest => if isDigitChar c then 'c' :: 'o' :: 'l' :: '_' :: c :: rest else c :: rest
  | [] => []

/-- Steps 1–5 of `sanitize_name` on the character list.  (Step 6, the
`unnamed` fallback, lives in `sanitize_name`.) -/
def sanitizeCore (l : List Char) : List Char :=
  sanitizePrepend (sanitizeStrip l)

/-- Embedding of `sanitize_name` (src/src/utils.py lines 87–115). -/
def sanitize_name (s : String) : String :=
  match sanitizeCore s.data with
  | [] => "unnamed"
  | c :: rest => ⟨c :: rest⟩


/-! ## Column type inferrer — src/src/file_processor.py `infer_column_type`

The source works on Python strings and the builtins `float` / `int`.  The
model below reproduces, over ASCII strings:
  * `str.strip()`                      — `pyStrip`
  * the acceptance of Python `float(s)` — `pyFloatValid` (sign, digit parts
    with PEP-515 underscores, optional point and exponent, inf/nan words)
  * `int(float(s))` for the strings that can reach the BIGINT branch of the
    source, i.e. strings with no decimal point and no exponent marker —
    `pyIntFloat` (IEEE-754 double rounding of the integer literal, `none`
    when `int()` would raise on inf/nan or on a literal rounding to
    infinity). -/

/-- Python `str.strip()` on ASCII text: drop whitespace at both ends. -/
def pyStrip (s : String) : String :=
  ⟨((s.data.dropWhile isSpaceChar).reverse.dropWhile isSpaceChar).reverse⟩

/-- The leading-zero test of the source (line 73):
`val_str.startswith('0') and len(val_str) > 1 and val_str[1].isdigit()`. -/
def leadingZeroQ (s : String) : Bool :=
  match s.data with
  | '0' :: c :: _ => isDigitChar c
  | _ => false

/-- Continuation of a digit run: digits with single underscores strictly
between digits (PEP 515), after an initial digit has been consumed. -/
def digitRest : List Char → Bool
  | [] => true
  | '_' :: rest =>
    match rest with
    | c :: rest2 => isDigitChar c && digitRest rest2
    | [] => false
  | c :: rest => isDigitChar c && digitRest rest

/-- A Python `digitpart`: nonempty digit run with underscores only between
digits. -/
def digitpart : List Char → Bool
  | c :: rest => isDigitChar c && digitRest rest
  | [] => false

/-- Split a character list at the first character satisfying `p`; `none`
when no character matches. -/
def splitAtFirst (p : Char → Bool) : List Char → List Char × Option (List Char)
  | [] => ([], none)
  | c :: rest =>
    if p c then ([], some rest)
    else
      let (a, b) := splitAtFirst p rest
      (c :: a, b)

/-- Mantissa of a float literal: `digitpart`, or `digitpart? '.' digitpart?`
with at least one digit present. -/
def mantissaValid (l : List Char) : Bool :=
  match splitAtFirst (· == '.') l with
  | (_, none) => digitpart l
  | (ip, some fp) =>
    (ip.isEmpty || digitpart ip) && (fp.isEmpty || digitpart fp) &&
      !(ip.isEmpty && fp.isEmpty)

/-- Exponent of a float literal, after the `e`/`E`: optional sign then a
`digitpart`. -/
def exponentValid : List Char → Bool
  | '+' :: r => digitpart r
  | '-' :: r => digitpart r
  | r => digitpart r

/-- The case-insensitive special words accepted by Python `float`. -/
def isInfNan (l : List Char) : Bool :=
  let low := l.map toLowerChar
  low == "inf".data || low == "infinity".data || low == "nan".data

/-- Unsigned part of a Python float literal. -/
def floatUnsigned (l : List Char) : Bool :=
  isInfNan l ||
    (match splitAtFirst (fun c => c == 'e' || c == 'E') l with
     | (m, none) => mantissaValid m
     | (m, some ex) => mantissaValid m && exponentValid ex)

/-- Acceptance of Python `float(s)` on an already-stripped ASCII string. -/
def pyFloatValid (s : String) : Bool :=
  match s.data with
  | '+' :: r => floatUnsigned r
  | '-' :: r => floatUnsigned r
  | r => floatUnsigned r

/-- The decimal-marker test of the source (line 82):
`'.' in val_str or 'e' in val_str.lower() or 'E' in val_str`. -/
def hasDecimalMark (s : String) : Bool :=
  s.data.any (· == '.') || (s.data.map toLowerChar).any (· == 'e') ||
    s.data.any (· == 'E')

/-- Number of binary digits of `n` (0 for 0), with explicit fuel so that the
definition reduces inside the kernel; `fuel ≥ n.log2 + 1` is enough. -/
def bitLenAux : Nat → Nat → Nat
  | 0, _ => 0
  | fuel + 1, n => if n = 0 then 0 else bitLenAux fuel (n / 2) + 1

/-- Round an integer to the nearest IEEE-754 binary64 value (ties to even),
as Python `float` does to an integer literal; `none` when the result
overflows to infinity (so that a later `int()` raises `OverflowError`).
Magnitudes of `2 ^ 1024` or more always overflow, so the bit-length fuel
1100 covers every remaining case. -/
def roundDouble (n : Int) : Option Int :=
  let a := n.natAbs
  if a < 2 ^ 53 then some n
  else if a ≥ 2 ^ 1024 then none
  else
    let e := bitLenAux 1100 a - 53
    let q := a / 2 ^ e
    let r := a % 2 ^ e
    let q2 :=
      if 2 * r < 2 ^ e then q
      else if 2 * r > 2 ^ e then q + 1
      else if q % 2 = 0 then q else q + 1
    let rd := q2 * 2 ^ e
    if rd ≥ 2 ^ 1024 then none
    else some (if n < 0 then -(rd : Int) else (rd : Int))

/-- Numeric value of a digit run, underscores removed. -/
def natOfDigits (l : List Char) : Nat :=
  (l.filter (fun c => !(c == '_'))).foldl (fun a c => 10 * a + (c.toNat - 48)) 0

/-- Model of Python `int(float(str(v)))` for the strings that can reach the
BIGINT branch of `infer_column_type` (all of which parse as floats and
contain no `.`, `e` or `E`): strip, read an optional sign, refuse the
inf/nan words (on which `int()` raises), and round the integer literal to
binary64.  Strings outside that fragment (which cannot occur at the call
site) yield `none`. -/
def pyIntFloat (v : String) : Option Int :=
  let l := (pyStrip v).data
  let (sgn, l2) : Int × List Char :=
    match l with
    | '+' :: r => (1, r)
    | '-' :: r => (-1, r)
    | r => (1, r)
  if isInfNan l2 then none
  else if digitpart l2 then roundDouble (sgn * (natOfDigits l2 : Int))
  else none

/-- A value that stops the scan of `infer_column_type`: its trimmed form
matches the leading-zero pattern or fails to parse as a Python float. -/
def disqualifies (v : String) : Bool :=
  leadingZeroQ (pyStrip v) || !pyFloatValid (pyStrip v)

/-- The scanning loop of `infer_column_type` (source lines 69–86) over the
non-null values.  Result `none` models a `break` with `all_numeric = False`
(leading zeros or a failed `float` parse); `some hasDec` models a completed
scan with the final value of `has_decimals`. -/
def inferScan : List String → Bool → Option Bool
  | [], hasDec => some hasDec
  | v :: rest, hasDec =>
    let s := pyStrip v
    if leadingZeroQ s then none
    else if !pyFloatValid s then none
    else inferScan rest (hasDec || hasDecimalMark s)

/-- All-or-nothing evaluation of `int(float(str(v)))` over a list: the model
of the generator expressions at source lines 98–99, whose first raising
element aborts the whole `max`/`min` computation (`none`). -/
def mapOption (f : String → Option Int) : List String → Option (List Int)
  | [] => some []
  | v :: rest =>
    match f v, mapOption f rest with
    | some i, some is => some (i :: is)
    | _, _ => none

/-- Embedding of `infer_column_type` (src/src/file_processor.py lines
52–108).  A column is a list of optional strings; `none` cells model the NA
values dropped by `series.dropna()`. -/
def infer_column_type (values : List (Option String)) : String :=
  let nonNull := values.filterMap id
  if nonNull.isEmpty then "NVARCHAR(MAX)"
  else
    match inferScan nonNull false with
    | none => "NVARCHAR(MAX)"
    | some true => "FLOAT"
    | some false =>
      match mapOption pyIntFloat nonNull with
      | none => "NVARCHAR(MAX)"
      | some [] => "NVARCHAR(MAX)"
      | some (i :: is) =>
        let mx := is.foldl max i
        let mn := is.foldl min i
        if -9223372036854775808 ≤ mn ∧ mx ≤ 9223372036854775807 then "BIGINT"
        else "NVARCHAR(MAX)"


/-! ## Table materializer — src/src/database.py `create_table_from_dataframe`

The dataframe handed over by the reader is a rectangular grid of optional
strings with named columns.  The cursor is modelled by a statement trace
plus a failure oracle for the row inserts: `fails i = some e` means that
`cursor.execute` raises error `e` on the insert of row `i` (0-based), and
`fails i = none` that it succeeds.  The drop and create statements of the
source have no surrounding `try`, so their execution is not gated by the
oracle. -/

/-- In-memory table as produced by the reader: sanitized column names plus
rows of optional strings (`none` = NA). -/
structure DataFrame where
  columns : List String
  rows : List (List (Option String))
deriving DecidableEq, Repr

/-- SQL statements issued through the cursor. -/
inductive Stmt where
  | dropIfExists (table : String)
  | createTable (table : String) (cols : List (String × String))
  | insertRow (table : String) (vals : List String)
  | commit
deriving DecidableEq, Repr

/-- The single-quote character, kept out of character-literal syntax. -/
def quoteChar : Char := Char.ofNat 39

/-- Model of Python `str(v).replace(chr(39), chr(39) * 2)`: double every
single quote. -/
def escapeQuotes : List Char → List Char
  | [] => []
  | c :: rest =>
    if c == quoteChar then quoteChar :: quoteChar :: escapeQuotes rest
    else c :: escapeQuotes rest

/-- Value formatting of the insert loop (source lines 128–136): NA cells
become the bare keyword `NULL`; cells of a column whose resolved type is
`BIGINT` or `FLOAT` are emitted unquoted; every other cell becomes a
single-quoted literal with embedded quotes doubled. -/
def formatCell (colType : String) (cell : Option String) : String :=
  match cell with
  | none => "NULL"
  | some v =>
    if colType == "BIGINT" || colType == "FLOAT" then v
    else ⟨quoteChar :: (escapeQuotes v.data ++ [quoteChar])⟩

/-- Values of the column named `c` (`df[column_name]`), by the first index
holding that name; faithful for tables with distinct column names (the
duplicate-name case is flagged as ambiguous in the spec and not claimed). -/
def colValues (df : DataFrame) (c : String) : List (Option String) :=
  match df.columns.findIdx? (· == c) with
  | none => []
  | some j => df.rows.map (fun r => r.getD j none)

/-- Resolved SQL type of column `c`: the override from `column_type_map`
when present, otherwise the inferred type (source lines 103–108). -/
def resolveType (df : DataFrame) (typeMap : String → Option String) (c : String) : String :=
  match typeMap c with
  | some t => t
  | none => infer_column_type (colValues df c)

/-- Resolved final name of column `c`:
`column_name_map.get(column_name, column_name)` (source line 100). -/
def resolveName (nameMap : String → Option String) (c : String) : String :=
  (nameMap c).getD c

/-- The `(final-name, type)` pairs of the emitted `CREATE TABLE`, in table
order (source lines 98–116). -/
def sqlColumns (df : DataFrame) (nameMap typeMap : String → Option String) :
    List (String × String) :=
  df.columns.map (fun c => (resolveName nameMap c, resolveType df typeMap c))

/-- Formatted value list of one insert statement:
`zip(df.columns, row.values)` with per-column type lookup (lines 127–136). -/
def formatRow (df : DataFrame) (typeMap : String → Option String)
    (row : List (Option String)) : List String :=
  (df.columns.zip row).map (fun p => formatCell (resolveType df typeMap p.1) p.2)

/-- The insert loop (source lines 125–146): rows are attempted in order;
the first failing `cursor.execute` aborts the loop, and the surfaced
failure carries the 1-based row index `idx + 1` (line 144) together with
the underlying error.  Returns the successfully executed insert statements
and `none` on full success. -/
def insertLoop (table : String) (vals : List (List String))
    (fails : Nat → Option String) (idx : Nat) :
    List Stmt × Option (Nat × String) :=
  match vals with
  | [] => ([], none)
  | v :: rest =>
    match fails idx with
    | some e => ([], some (idx + 1, e))
    | none =>
      let (tr, res) := insertLoop table rest fails (idx + 1)
      (Stmt.insertRow table v :: tr, res)

/-- Embedding of `create_table_from_dataframe` (src/src/database.py lines
69–149): drop-if-exists, create with resolved names/types, insert every row
in order, commit only after every insert succeeded.  The result is the full
statement trace plus the surfaced row failure, if any.  The function has no
drop flag parameter, exactly like the source. -/
def create_table_from_dataframe (df : DataFrame) (table : String)
    (nameMap typeMap : String → Option String) (fails : Nat → Option String) :
    List Stmt × Option (Nat × String) :=
  let (insTr, res) :=
    insertLoop table (df.rows.map (formatRow df typeMap)) fails 0
  (Stmt.dropIfExists table ::
      Stmt.createTable table (sqlColumns df nameMap typeMap) ::
      (insTr ++ match res with | none => [Stmt.commit] | some _ => []),
    res)

/-! ## Target database semantics

A minimal model of the engine the statements run against: a map from table
name to schema and stored rows, enough to express drop-idempotence and what
two successive materializations of the same table leave behind. -/

/-- Database state: each table name is either absent or carries its column
schema and its rows (as formatted value lists). -/
def Database := String → Option (List (String × String) × List (List String))

/-- Effect of one statement on the database state. -/
def execStmt (db : Database) : Stmt → Database
  | Stmt.dropIfExists t => fun k => if k = t then none else db k
  | Stmt.createTable t cols => fun k => if k = t then some (cols, []) else db k
  | Stmt.insertRow t vals =>
    fun k => if k = t then (db t).map (fun p => (p.1, p.2 ++ [vals])) else db k
  | Stmt.commit => db

/-- Effect of a statement trace, first statement first. -/
def execTrace (tr : List Stmt) (db : Database) : Database :=
  tr.foldl execStmt db

/-! ## Tabular source reader, CSV path — src/src/file_processor.py
`get_dataframes`, lines 19–28

The source calls `pd.read_csv(file_path, dtype=str, keep_default_na=False)`
— with pandas' default comma separator and *no* way to pass another one:
the function signature is `get_dataframes(file_path)`, while its callers
(src/src/gui_main.py line 550, src/src/dialogs/preview_dialog.py line 35)
invoke it as `get_dataframes(file_path, delimiter=...)`.  The model reads
the file contents as a list of lines, splits each line on the separator
(plain cells; the quoting layer of pandas is not exercised by the claims),
normalizes empty cells to NA and sanitizes the header. -/

/-- Split a character list on a separator character. -/
def splitSepAux (sep : Char) : List Char → List Char → List (List Char)
  | [], acc => [acc.reverse]
  | c :: rest, acc =>
    if c == sep then acc.reverse :: splitSepAux sep rest []
    else splitSepAux sep rest (c :: acc)

/-- Fields of one delimited line. -/
def splitLine (sep : Char) (line : String) : List String :=
  (splitSepAux sep line.data []).map (fun l => ⟨l⟩)

/-- Model of `df.replace('', pd.NA)` on one read cell. -/
def emptyToNA (s : String) : Option String := if s = "" then none else some s

/-- Parse delimited text into a dataframe: first line is the header
(sanitized), remaining lines are rows with empty cells as NA. -/
def parseDelimited (sep : Char) (lines : List String) : DataFrame :=
  match lines with
  | [] => ⟨[], []⟩
  | header :: rest =>
    ⟨(splitLine sep header).map sanitize_name,
     rest.map (fun r => (splitLine sep r).map emptyToNA)⟩

/-- Embedding of the CSV branch of `get_dataframes` (source lines 19–28):
a single sheet keyed `"sheet1"`, parsed with pandas' default comma
separator.  Like the source function, it accepts no delimiter argument. -/
def get_dataframes (lines : List String) : List (String × DataFrame) :=
  [("sheet1", parseDelimited ',' lines)]

/-- Modelled from the spec: the delimiter-configurable CSV read that §4.3
and §6 describe (`read(source)` with a per-file delimiter out of comma,
semicolon, tab, pipe, space), which is missing from
`get_dataframes` in src/src/file_processor.py. -/
def get_dataframes_spec (sep : Char) (lines : List String) :
    List (String × DataFrame) :=
  [("sheet1", parseDelimited sep lines)]

/-- Interpretation of the body of a SQL single-quoted string literal by the
target engine: every doubled quote stands for one quote character. -/
def unescapeQuotes : List Char → List Char
  | [] => []
  | [c] => [c]
  | c :: d :: rest =>
    if c == quoteChar && d == quoteChar then quoteChar :: unescapeQuotes rest
    else c :: unescapeQuotes (d :: rest)

/-- The test string of the spec's round-trip property: `O`, a single quote,
`Brien`. -/
def obrien : String := ⟨['O', quoteChar, 'B', 'r', 'i', 'e', 'n']⟩

/-- The SQL literal the materializer emits for `obrien`: quoted, with the
embedded quote doubled. -/
def obrienLiteral : String :=
  ⟨[quoteChar, 'O', quoteChar, quoteChar, 'B', 'r', 'i', 'e', 'n', quoteChar]⟩

/-- The per-sheet conversion step of the GUI worker (src/src/gui_main.py
lines 564–574): it has the "drop existing tables" checkbox state in scope
but never passes it on — `create_table_from_dataframe` takes no such
parameter. -/
def convertSheet (dropExisting : Bool) (df : DataFrame) (table : String)
    (nameMap typeMap : String → Option String) (fails : Nat → Option String) :
    List Stmt × Option (Nat × String) :=
  create_table_from_dataframe df table nameMap typeMap fails

/-! ## Lemmas about the sanitizer -/

theorem sanMapId {f : Char → Char} :
    ∀ {l : List Char}, (∀ c ∈ l, f c = c) → l.map f = l := by
  intro l
  induction l with
  | nil => intro _; rfl
  | cons c r ih =>
    intro h
    simp only [List.map_cons, h c (by simp)]
    rw [ih (fun x hx => h x (by simp [hx]))]

theorem sanMemDropWhile {p : Char → Bool} {c : Char} :
    ∀ {l : List Char}, c ∈ l.dropWhile p → c ∈ l := by
  intro l
  induction l with
  | nil => intro h; exact h
  | cons a r ih =>
    intro h
    rw [List.dropWhile_cons] at h
    by_cases hp : p a = true
    · simp only [hp, if_true] at h
      exact List.mem_cons_of_mem a (ih h)
    · simp only [hp] at h
      simpa using h

theorem sanDropWhileHead {p : Char → Bool} {c : Char} {r : List Char} :
    ∀ {l : List Char}, l.dropWhile p = c :: r → p c = false := by
  intro l
  induction l with
  | nil => intro h; cases h
  | cons a t ih =>
    intro h
    rw [List.dropWhile_cons] at h
    by_cases hp : p a = true
    · simp only [hp, if_true] at h
      exact ih h
    · simp only [hp] at h
      cases h
      simpa using hp

theorem sanDropWhileSelf {p : Char → Bool} {l : List Char}
    (h : ∀ c ∈ l, p c = false) : l.dropWhile p = l := by
  cases l with
  | nil => rfl
  | cons a t => rw [List.dropWhile_cons, h a (by simp)]; simp

/-- Trailing trim is an initial segment: the trimmed-from-the-right list
plus the removed run rebuilds the original. -/
theorem sanTrimRightAppend (p : Char → Bool) (m : List Char) :
    m = (m.reverse.dropWhile p).reverse ++ (m.reverse.takeWhile p).reverse := by
  have h := List.takeWhile_append_dropWhile (p := p) (l := m.reverse)
  calc m = m.reverse.reverse := by rw [List.reverse_reverse]
    _ = (m.reverse.takeWhile p ++ m.reverse.dropWhile p).reverse := by rw [h]
    _ = (m.reverse.dropWhile p).reverse ++ (m.reverse.takeWhile p).reverse := by
        rw [List.reverse_append]

theorem sanMemStrip {c : Char} {l : List Char} (h : c ∈ stripUnderscores l) :
    c ∈ l := by
  unfold stripUnderscores at h
  rw [List.mem_reverse] at h
  exact sanMemDropWhile (List.mem_reverse.mp (sanMemDropWhile h))

/-- The head of the stripped list is not an underscore. -/
theorem sanStripHead {c : Char} {r l : List Char}
    (h : stripUnderscores l = c :: r) : (c == '_') = false := by
  unfold stripUnderscores at h
  have hm := sanTrimRightAppend (· == '_') (l.dropWhile (· == '_'))
  rw [h, List.cons_append] at hm
  exact sanDropWhileHead (p := (· == '_')) (c := c)
    (r := r ++ ((l.dropWhile (· == '_')).reverse.takeWhile (· == '_')).reverse) hm

theorem sanAllowedNotSpace {c : Char} (h : isAllowedChar c = true) :
    isSpaceChar c = false := by
  by_contra hs
  rw [Bool.not_eq_false] at hs
  simp only [isSpaceChar, Bool.or_eq_true, beq_iff_eq] at hs
  rcases hs with ((((h1 | h2) | h3) | h4) | h5) | h6 <;> subst_vars <;>
    exact absurd h (by decide)

theorem sanAllowedToLower {c : Char} (h : isAllowedChar c = true) :
    toLowerChar c = c := by
  unfold toLowerChar
  have hz : ('A' ≤ c && c ≤ 'Z') = false := by
    simp only [isAllowedChar, isLowerAlpha, isDigitChar, Bool.or_eq_true,
      Bool.and_eq_true, beq_iff_eq, decide_eq_true_eq] at h
    rw [Bool.and_eq_false_iff]
    rcases h with (⟨h1, _⟩ | ⟨_, h2⟩) | h3
    · right
      simp only [decide_eq_false_iff_not]
      intro hle
      exact absurd (le_trans h1 hle) (by decide)
    · left
      simp only [decide_eq_false_iff_not]
      intro hle
      exact absurd (le_trans hle h2) (by decide)
    · subst h3; right; decide
  rw [hz]
  rfl

theorem sanLowerNotDigit {c : Char} (h : isLowerAlpha c = true) :
    isDigitChar c = false := by
  simp only [isLowerAlpha, Bool.and_eq_true, decide_eq_true_eq] at h
  simp only [isDigitChar, Bool.and_eq_false_iff, decide_eq_false_iff_not]
  right
  intro hle
  exact absurd (le_trans h.1 hle) (by decide)

theorem sanAllowedNotUnderscore {c : Char} (ha : isAllowedChar c = true)
    (hu : (c == '_') = false) :
    isLowerAlpha c = true ∨ isDigitChar c = true := by
  simp only [isAllowedChar, Bool.or_eq_true] at ha
  rcases ha with (h | h) | h
  · exact Or.inl h
  · exact Or.inr h
  · rw [h] at hu; cases hu

/-- The last element of the stripped list is not an underscore. -/
theorem sanStripLast {l : List Char} :
    (stripUnderscores l).getLast? ≠ some '_' := by
  unfold stripUnderscores
  intro h
  rw [← List.head?_reverse, List.reverse_reverse] at h
  cases hd : (l.dropWhile (· == '_')).reverse.dropWhile (· == '_') with
  | nil => rw [hd] at h; cases h
  | cons a t =>
    rw [hd] at h
    have ha : a = '_' := by cases h; rfl
    have := sanDropWhileHead hd
    rw [ha] at this
    simp at this

theorem sanCollapseId {l : List Char} (h : ∀ c ∈ l, isSpaceChar c = false) :
    ∀ b, collapseWsAux b l = l := by
  induction l with
  | nil => intro b; rfl
  | cons c r ih =>
    intro b
    unfold collapseWsAux
    rw [h c (by simp)]
    simp only [Bool.false_eq_true, if_false]
    rw [ih (fun x hx => h x (by simp [hx])) false]

theorem sanLowerNotUnderscoreBeq {c : Char} (h : isLowerAlpha c = true) :
    (c == '_') = false := by
  by_contra hb
  rw [Bool.not_eq_false, beq_iff_eq] at hb
  subst hb
  exact absurd h (by decide)

/-- Fixpoint: a nonempty list of `[a-z0-9_]` characters that starts with a
lowercase letter and does not end in an underscore is left unchanged by
steps 1–5 of the sanitizer. -/
theorem sanitizeCoreFixed {c : Char} {r : List Char}
    (hall : ∀ x ∈ c :: r, isAllowedChar x = true)
    (hhead : isLowerAlpha c = true)
    (hlast : (c :: r).getLast? ≠ some '_') :
    sanitizeCore (c :: r) = c :: r := by
  have hmap : (c :: r).map toLowerChar = c :: r :=
    sanMapId (fun x hx => sanAllowedToLower (hall x hx))
  have hcoll : collapseWsAux false (c :: r) = c :: r :=
    sanCollapseId (fun x hx => sanAllowedNotSpace (hall x hx)) false
  have hfilt : (c :: r).filter isAllowedChar = c :: r :=
    List.filter_eq_self.mpr hall
  have hstrip : stripUnderscores (c :: r) = c :: r := by
    unfold stripUnderscores
    have h1 : (c :: r).dropWhile (· == '_') = c :: r := by
      rw [List.dropWhile_cons, sanLowerNotUnderscoreBeq hhead]
      simp
    rw [h1]
    cases hrev : (c :: r).reverse with
    | nil => exact absurd hrev (by simp)
    | cons a t =>
      have hga : (c :: r).getLast? = some a := by
        rw [← List.head?_reverse, hrev]
        rfl
      have hau : (a == '_') = false := by
        by_contra hb
        rw [Bool.not_eq_false, beq_iff_eq] at hb
        subst hb
        exact hlast hga
      rw [List.dropWhile_cons, hau]
      simp only [Bool.false_eq_true, if_false]
      rw [← hrev, List.reverse_reverse]
  have hss : sanitizeStrip (c :: r) = c :: r := by
    unfold sanitizeStrip
    rw [hmap, hcoll, hfilt, hstrip]
  unfold sanitizeCore
  rw [hss]
  simp only [sanitizePrepend, sanLowerNotDigit hhead, Bool.false_eq_true, if_false]

/-- Every character surviving `sanitizeStrip` is in `[a-z0-9_]`. -/
theorem sanStripAllowed {l : List Char} :
    ∀ c ∈ sanitizeStrip l, isAllowedChar c = true := by
  intro c hc
  exact List.of_mem_filter (sanMemStrip hc)

theorem sanitizeCoreMem {l : List Char} :
    ∀ c ∈ sanitizeCore l, isAllowedChar c = true := by
  intro c hc
  unfold sanitizeCore at hc
  cases hs : sanitizeStrip l with
  | nil => rw [hs] at hc; cases hc
  | cons a t =>
    rw [hs] at hc
    have hmem : ∀ x ∈ a :: t, isAllowedChar x = true := by
      intro x hx
      apply sanStripAllowed (l := l)
      rw [hs]
      exact hx
    simp only [sanitizePrepend] at hc
    by_cases hd : isDigitChar a = true
    · rw [hd] at hc
      simp only [if_true, List.mem_cons] at hc
      rcases hc with rfl | rfl | rfl | rfl | hc2
      · decide
      · decide
      · decide
      · decide
      · exact hmem c (List.mem_cons.mpr hc2)
    · rw [Bool.not_eq_true] at hd
      rw [hd] at hc
      simp only [Bool.false_eq_true, if_false] at hc
      exact hmem c hc

theorem sanitizeCoreHead {l : List Char} {c : Char} {r : List Char}
    (h : sanitizeCore l = c :: r) : isLowerAlpha c = true := by
  unfold sanitizeCore at h
  cases hs : sanitizeStrip l with
  | nil => rw [hs] at h; cases h
  | cons a t =>
    rw [hs] at h
    simp only [sanitizePrepend] at h
    by_cases hd : isDigitChar a = true
    · rw [hd] at h
      simp only [if_true] at h
      injection h with h1 _
      subst h1
      decide
    · rw [Bool.not_eq_true] at hd
      rw [hd] at h
      simp only [Bool.false_eq_true, if_false] at h
      injection h with h1 _
      subst h1
      have ha : isAllowedChar a = true := by
        apply sanStripAllowed (l := l)
        rw [hs]
        exact List.mem_cons_self _ _
      have hu : (a == '_') = false := sanStripHead hs
      rcases sanAllowedNotUnderscore ha hu with hl | hdig
      · exact hl
      · rw [hdig] at hd; cases hd

theorem sanitizeNameEqOfCore {x : String} {c : Char} {r : List Char}
    (h : sanitizeCore x.data = c :: r) : sanitize_name x = ⟨c :: r⟩ := by
  unfold sanitize_name
  rw [h]

theorem sanitizeNameUnnamedOfCore {x : String}
    (h : sanitizeCore x.data = []) : sanitize_name x = "unnamed" := by
  unfold sanitize_name
  rw [h]

theorem sanitizeCoreLast {l : List Char} :
    (sanitizeCore l).getLast? ≠ some '_' := by
  unfold sanitizeCore
  cases hs : sanitizeStrip l with
  | nil => simp [sanitizePrepend]
  | cons a t =>
    simp only [sanitizePrepend]
    by_cases hd : isDigitChar a = true
    · rw [hd]
      simp only [if_true]
      rw [List.getLast?_cons_cons, List.getLast?_cons_cons, List.getLast?_cons_cons,
        List.getLast?_cons_cons]
      rw [← hs]
      exact sanStripLast
    · rw [Bool.not_eq_true] at hd
      rw [hd]
      simp only [Bool.false_eq_true, if_false]
      rw [← hs]
      exact sanStripLast

/-! ## Claim theorems for the identifier sanitizer -/

/-- C9: `sanitize_name` realizes the spec's six ordered steps on its test
vectors: `"Order ID" ↦ "order_id"`, `"123abc" ↦ "col_123abc"`,
`"!!!" ↦ "unnamed"`, `"" ↦ "unnamed"`. -/
theorem sanitize_examples :
    sanitize_name "Order ID" = "order_id" ∧
      sanitize_name "123abc" = "col_123abc" ∧
      sanitize_name "!!!" = "unnamed" ∧
      sanitize_name "" = "unnamed" := by
  refine ⟨?_, ?_, ?_, ?_⟩ <;> decide

/-- C8: `sanitize_name` is idempotent — sanitizing an already sanitized
name changes nothing. -/
theorem sanitize_idempotent (x : String) :
    sanitize_name (sanitize_name x) = sanitize_name x := by
  cases h : sanitizeCore x.data with
  | nil =>
    rw [sanitizeNameUnnamedOfCore h]
    decide
  | cons c r =>
    rw [sanitizeNameEqOfCore h]
    have hfix : sanitizeCore (c :: r) = c :: r := by
      apply sanitizeCoreFixed
      · intro y hy
        rw [← h] at hy
        exact sanitizeCoreMem y hy
      · exact sanitizeCoreHead h
      · rw [← h]
        exact sanitizeCoreLast
    have hdata : (⟨c :: r⟩ : String).data = c :: r := rfl
    have := sanitizeNameEqOfCore (x := ⟨c :: r⟩) (hdata ▸ hfix)
    exact this

/-- C10: every sanitized name is a safe SQL identifier — nonempty, drawn
from `[a-z0-9_]`, and starting with a lowercase letter (never a digit or an
underscore). -/
theorem sanitize_safe_identifier (x : String) :
    (sanitize_name x).data ≠ [] ∧
      (∀ c ∈ (sanitize_name x).data, isAllowedChar c = true) ∧
      ∀ c r, (sanitize_name x).data = c :: r → isLowerAlpha c = true := by
  cases h : sanitizeCore x.data with
  | nil =>
    rw [sanitizeNameUnnamedOfCore h]
    refine ⟨by decide, by decide, ?_⟩
    intro c r hcr
    have hu : ('u' : Char) = c := by
      have : ('u' :: "nnamed".data) = c :: r := hcr
      injection this
    rw [← hu]
    decide
  | cons c r =>
    rw [sanitizeNameEqOfCore h]
    have hdata : (⟨c :: r⟩ : String).data = c :: r := rfl
    rw [hdata]
    refine ⟨by simp, ?_, ?_⟩
    · intro y hy
      rw [← h] at hy
      exact sanitizeCoreMem y hy
    · intro c2 r2 heq
      injection heq with h1 _
      rw [← h1]
      exact sanitizeCoreHead h

/-! ## Lemmas about the type inferrer -/

theorem inferScanBreak {v : String} (hv : disqualifies v = true) :
    ∀ (pre post : List String) (b : Bool),
      (∀ u ∈ pre, disqualifies u = false) →
      inferScan (pre ++ v :: post) b = none := by
  intro pre
  induction pre with
  | nil =>
    intro post b _
    simp only [List.nil_append]
    by_cases hlz : leadingZeroQ (pyStrip v) = true
    · simp [inferScan, hlz]
    · simp only [disqualifies, Bool.or_eq_true, Bool.not_eq_true'] at hv
      rcases hv with h | h
      · exact absurd h hlz
      · simp [inferScan, hlz, h]
  | cons u pre ih =>
    intro post b hall
    have hu : disqualifies u = false := hall u (by simp)
    simp only [disqualifies, Bool.or_eq_false_iff, Bool.not_eq_false'] at hu
    simp only [List.cons_append]
    simp only [inferScan, hu.1, hu.2, Bool.false_eq_true, if_false, Bool.not_true,
      Bool.true_eq_false]
    exact ih post _ (fun x hx => hall x (by simp [hx]))

theorem inferScanAll :
    ∀ (l : List String),
      (∀ u ∈ l, disqualifies u = false ∧ hasDecimalMark (pyStrip u) = false) →
      ∀ b, inferScan l b = some b := by
  intro l
  induction l with
  | nil => intro _ b; rfl
  | cons u rest ih =>
    intro h b
    obtain ⟨hdq, hdm⟩ := h u (by simp)
    simp only [disqualifies, Bool.or_eq_false_iff, Bool.not_eq_false'] at hdq
    simp only [inferScan, hdq.1, hdq.2, hdm, Bool.false_eq_true, if_false, Bool.not_true,
      Bool.true_eq_false, Bool.or_false]
    exact ih (fun x hx => h x (by simp [hx])) b

theorem mapOptionNeNil {f : String → Option Int} {l : List String} {v : String}
    (hv : v ∈ l) : mapOption f l ≠ some [] := by
  cases l with
  | nil => cases hv
  | cons a rest =>
    unfold mapOption
    cases f a <;> cases mapOption f rest <;> simp

theorem foldlMaxLe {b : Int} :
    ∀ (is : List Int) (i : Int), is.foldl max i ≤ b ↔ i ≤ b ∧ ∀ x ∈ is, x ≤ b := by
  intro is
  induction is with
  | nil => intro i; simp
  | cons x xs ih =>
    intro i
    simp only [List.foldl_cons]
    rw [ih (max i x)]
    constructor
    · rintro ⟨h1, h2⟩
      rw [max_le_iff] at h1
      refine ⟨h1.1, ?_⟩
      intro y hy
      rcases List.mem_cons.mp hy with rfl | hy
      · exact h1.2
      · exact h2 y hy
    · intro h
      exact ⟨max_le (h.1) (h.2 x (by simp)), fun y hy => h.2 y (by simp [hy])⟩

theorem foldlMinGe {b : Int} :
    ∀ (is : List Int) (i : Int), b ≤ is.foldl min i ↔ b ≤ i ∧ ∀ x ∈ is, b ≤ x := by
  intro is
  induction is with
  | nil => intro i; simp
  | cons x xs ih =>
    intro i
    simp only [List.foldl_cons]
    rw [ih (min i x)]
    constructor
    · rintro ⟨h1, h2⟩
      rw [le_min_iff] at h1
      refine ⟨h1.1, ?_⟩
      intro y hy
      rcases List.mem_cons.mp hy with rfl | hy
      · exact h1.2
      · exact h2 y hy
    · intro h
      exact ⟨le_min (h.1) (h.2 x (by simp)), fun y hy => h.2 y (by simp [hy])⟩

theorem rangeIffFold {i : Int} {is : List Int} :
    (-9223372036854775808 ≤ is.foldl min i ∧ is.foldl max i ≤ 9223372036854775807) ↔
      ∀ x ∈ i :: is, -9223372036854775808 ≤ x ∧ x ≤ 9223372036854775807 := by
  rw [foldlMinGe, foldlMaxLe]
  constructor
  · rintro ⟨⟨hi1, h1⟩, hi2, h2⟩
    intro x hx
    rcases List.mem_cons.mp hx with rfl | hx
    · exact ⟨hi1, hi2⟩
    · exact ⟨h1 x hx, h2 x hx⟩
  · intro h
    exact ⟨⟨(h i (by simp)).1, fun x hx => (h x (by simp [hx])).1⟩,
      (h i (by simp)).2, fun x hx => (h x (by simp [hx])).2⟩

/-! ## Claim theorems for the type inferrer -/

/-- C1: `infer_column_type` returns exactly the spec's vectors — TEXT for
leading zeros, INTEGER for plain int columns, FLOAT when a decimal appears,
TEXT on a parse failure, TEXT for all-NULL, TEXT one past the signed 64-bit
maximum — and, in general, the first disqualifying value (leading-zero
match or float-parse failure) after a prefix of non-disqualifying values
makes the whole column TEXT regardless of everything after it. -/
theorem infer_spec_vectors :
    infer_column_type [some "007", some "042"] = "NVARCHAR(MAX)" ∧
      infer_column_type [some "7", some "42"] = "BIGINT" ∧
      infer_column_type [some "7.5", some "42"] = "FLOAT" ∧
      infer_column_type [some "7", some "abc"] = "NVARCHAR(MAX)" ∧
      infer_column_type [none, none] = "NVARCHAR(MAX)" ∧
      infer_column_type [some "9223372036854775808"] = "NVARCHAR(MAX)" ∧
      ∀ (pre : List (Option String)) (v : String) (post : List (Option String)),
        (∀ u ∈ pre.filterMap id, disqualifies u = false) →
        disqualifies v = true →
        infer_column_type (pre ++ some v :: post) = "NVARCHAR(MAX)" := by
  refine ⟨by decide, by decide, by decide, by decide, by decide, ?_, ?_⟩
  · set_option maxRecDepth 8192 in
    set_option exponentiation.threshold 2048 in
    decide
  · intro pre v post hpre hv
    have hnn : (pre ++ some v :: post).filterMap id =
        pre.filterMap id ++ v :: post.filterMap id := by simp
    have hemp : (pre.filterMap id ++ v :: post.filterMap id).isEmpty = false := by
      cases h : pre.filterMap id <;> simp
    have hscan := inferScanBreak hv (pre.filterMap id) (post.filterMap id) false hpre
    simp only [infer_column_type, hnn, hemp, Bool.false_eq_true, if_false, hscan]

/-- Witness for the quantified component of C1, at the column
`["7", "0x2", "99999"]` whose second value fails the float parse. -/
theorem infer_spec_vectors_witness :
    infer_column_type [some "7", some "0x2", some "99999"] = "NVARCHAR(MAX)" :=
  infer_spec_vectors.2.2.2.2.2.2 [some "7"] "0x2" [some "99999"]
    (by decide) (by decide)

/-- C2: on a column whose non-null values all parse as floats, with no
leading-zero match and no `.`, `e` or `E` anywhere, the result is BIGINT
exactly when every `int(float(value))` is defined and lies within the
signed 64-bit range, and NVARCHAR(MAX) otherwise; the range test is on the
rounded `int(float(value))`, not on the exact decimal value. -/
theorem infer_integer_range (vs : List (Option String))
    (hne : vs.filterMap id ≠ [])
    (hall : ∀ v ∈ vs.filterMap id,
      pyFloatValid (pyStrip v) = true ∧ leadingZeroQ (pyStrip v) = false ∧
        hasDecimalMark (pyStrip v) = false) :
    infer_column_type vs =
      match mapOption pyIntFloat (vs.filterMap id) with
      | none => "NVARCHAR(MAX)"
      | some ints =>
        if ∀ x ∈ ints, -9223372036854775808 ≤ x ∧ x ≤ 9223372036854775807 then
          "BIGINT"
        else "NVARCHAR(MAX)" := by
  cases hl : vs.filterMap id with
  | nil => exact absurd hl hne
  | cons a as =>
    have hscan : inferScan (a :: as) false = some false := by
      apply inferScanAll
      intro u hu
      rw [← hl] at hu
      obtain ⟨h1, h2, h3⟩ := hall u hu
      exact ⟨by simp [disqualifies, h1, h2], h3⟩
    simp only [infer_column_type, hl, List.isEmpty_cons, Bool.false_eq_true, if_false,
      hscan]
    cases hm : mapOption pyIntFloat (a :: as) with
    | none => rfl
    | some ints =>
      cases ints with
      | nil => exact absurd hm (mapOptionNeNil (List.mem_cons_self a as))
      | cons i is =>
        simp only [rangeIffFold]

/-- Witness for C2 at the integral column `["12", NULL, "-4"]`. -/
theorem infer_integer_range_witness :
    infer_column_type [some "12", none, some "-4"] = "BIGINT" := by
  have h := infer_integer_range [some "12", none, some "-4"] (by decide) (by decide)
  rw [h]
  decide

/-! ## Lemmas about the materializer -/

theorem insertLoopAllOk (t : String) (fails : Nat → Option String) :
    ∀ (vals : List (List String)) (idx : Nat),
      (∀ i, idx ≤ i → i < idx + vals.length → fails i = none) →
      insertLoop t vals fails idx = (vals.map (Stmt.insertRow t), none) := by
  intro vals
  induction vals with
  | nil => intro idx _; rfl
  | cons v rest ih =>
    intro idx h
    have h0 : fails idx = none := h idx (le_refl idx) (by simp)
    simp only [insertLoop, h0]
    rw [ih (idx + 1) (fun i h1 h2 => h i (by omega) (by simp at h2 ⊢; omega))]
    simp

theorem insertLoopFail (t : String) (fails : Nat → Option String) :
    ∀ (vals : List (List String)) (idx k : Nat) (e : String),
      k < vals.length →
      (∀ i, i < k → fails (idx + i) = none) →
      fails (idx + k) = some e →
      insertLoop t vals fails idx =
        ((vals.take k).map (Stmt.insertRow t), some (idx + k + 1, e)) := by
  intro vals
  induction vals with
  | nil => intro idx k e hk; simp at hk
  | cons v rest ih =>
    intro idx k e hk hpre he
    cases k with
    | zero =>
      simp only [Nat.add_zero] at he
      simp only [insertLoop, he, List.take_zero, List.map_nil]
    | succ k2 =>
      have h0 : fails idx = none := by
        have := hpre 0 (by omega)
        simpa using this
      simp only [insertLoop, h0]
      have hrec := ih (idx + 1) k2 e (by simp at hk; omega)
        (fun i hi => by
          have := hpre (i + 1) (by omega)
          rw [show idx + (i + 1) = idx + 1 + i by omega] at this
          exact this)
        (by rw [show idx + 1 + k2 = idx + (k2 + 1) by omega]; exact he)
      rw [hrec]
      simp only [List.take_succ_cons, List.map_cons]
      refine congrArg (fun z => (Stmt.insertRow t v :: (rest.take k2).map (Stmt.insertRow t), z)) ?_
      have : idx + 1 + k2 + 1 = idx + (k2 + 1) + 1 := by omega
      rw [this]

/-- Full-success run of `create_table_from_dataframe`: the whole trace and
the absence of a surfaced failure. -/
theorem materializeTraceOk (df : DataFrame) (t : String)
    (nameMap typeMap : String → Option String) (fails : Nat → Option String)
    (hok : ∀ i, i < df.rows.length → fails i = none) :
    create_table_from_dataframe df t nameMap typeMap fails =
      (Stmt.dropIfExists t :: Stmt.createTable t (sqlColumns df nameMap typeMap) ::
        ((df.rows.map (formatRow df typeMap)).map (Stmt.insertRow t) ++ [Stmt.commit]),
        none) := by
  unfold create_table_from_dataframe
  rw [insertLoopAllOk t fails (df.rows.map (formatRow df typeMap)) 0
    (fun i h1 h2 => hok i (by simpa using h2))]

/-- First-failure run of `create_table_from_dataframe`: the truncated trace
and the surfaced 1-based row index with the underlying error. -/
theorem materializeTraceFail (df : DataFrame) (t : String)
    (nameMap typeMap : String → Option String) (fails : Nat → Option String)
    (k : Nat) (e : String) (hk : k < df.rows.length)
    (hpre : ∀ i, i < k → fails i = none) (he : fails k = some e) :
    create_table_from_dataframe df t nameMap typeMap fails =
      (Stmt.dropIfExists t :: Stmt.createTable t (sqlColumns df nameMap typeMap) ::
        ((df.rows.map (formatRow df typeMap)).take k).map (Stmt.insertRow t),
        some (k + 1, e)) := by
  unfold create_table_from_dataframe
  rw [insertLoopFail t fails (df.rows.map (formatRow df typeMap)) 0 k e
    (by simpa using hk) (fun i hi => by simpa using hpre i hi) (by simpa using he)]
  simp

theorem escapeQuotesNil {l : List Char} (h : escapeQuotes l = []) : l = [] := by
  cases l with
  | nil => rfl
  | cons c r =>
    unfold escapeQuotes at h
    by_cases hc : (c == quoteChar) = true
    · rw [hc] at h; simp at h
    · rw [Bool.not_eq_true] at hc; rw [hc] at h; simp at h

/-- Quote-doubling followed by the engine's literal interpretation is the
identity: every escaped cell is stored back verbatim. -/
theorem unescapeEscape : ∀ l : List Char, unescapeQuotes (escapeQuotes l) = l := by
  intro l
  induction l with
  | nil => rfl
  | cons c r ih =>
    unfold escapeQuotes
    by_cases hc : (c == quoteChar) = true
    · rw [hc]
      simp only [if_true]
      rw [beq_iff_eq] at hc
      subst hc
      unfold unescapeQuotes
      simp only [beq_self_eq_true, Bool.and_self, if_true]
      rw [ih]
    · rw [Bool.not_eq_true] at hc
      rw [hc]
      simp only [Bool.false_eq_true, if_false]
      cases hr : escapeQuotes r with
      | nil =>
        rw [escapeQuotesNil hr]
        rfl
      | cons d rest =>
        unfold unescapeQuotes
        rw [hc]
        simp only [Bool.false_and, Bool.false_eq_true, if_false]
        rw [← hr, ih]

theorem execTraceAppend (a b : List Stmt) (db : Database) :
    execTrace (a ++ b) db = execTrace b (execTrace a db) := by
  unfold execTrace
  rw [List.foldl_append]

theorem execInsertsAt (t : String) (cols : List (String × String)) :
    ∀ (vs : List (List String)) (db : Database) (rows : List (List String)),
      db t = some (cols, rows) →
      execTrace (vs.map (Stmt.insertRow t)) db t = some (cols, rows ++ vs) := by
  intro vs
  induction vs with
  | nil =>
    intro db rows h
    simpa [execTrace] using h
  | cons v rest ih =>
    intro db rows h
    simp only [List.map_cons, execTrace, List.foldl_cons]
    have hdb : (execStmt db (Stmt.insertRow t v)) t = some (cols, rows ++ [v]) := by
      simp [execStmt, h]
    have hrec := ih (execStmt db (Stmt.insertRow t v)) (rows ++ [v]) hdb
    unfold execTrace at hrec
    rw [hrec]
    simp

/-! ## Claim theorems for the materializer -/

/-- C3: the commit is emitted exactly once, as the last statement, and only
when every row insert succeeded; the first failing insert truncates the row
statements at that row, emits no commit, and surfaces the 1-based row index
`k + 1` together with the underlying database error. -/
theorem materialize_commit_and_row_errors (df : DataFrame) (t : String)
    (nameMap typeMap : String → Option String) (fails : Nat → Option String) :
    ((∀ i, i < df.rows.length → fails i = none) →
      create_table_from_dataframe df t nameMap typeMap fails =
        (Stmt.dropIfExists t :: Stmt.createTable t (sqlColumns df nameMap typeMap) ::
          ((df.rows.map (formatRow df typeMap)).map (Stmt.insertRow t) ++ [Stmt.commit]),
          none)) ∧
    ∀ k e, k < df.rows.length → (∀ i, i < k → fails i = none) → fails k = some e →
      create_table_from_dataframe df t nameMap typeMap fails =
        (Stmt.dropIfExists t :: Stmt.createTable t (sqlColumns df nameMap typeMap) ::
          ((df.rows.map (formatRow df typeMap)).take k).map (Stmt.insertRow t),
          some (k + 1, e)) ∧
      (create_table_from_dataframe df t nameMap typeMap fails).1.count Stmt.commit = 0 := by
  constructor
  · intro hok
    exact materializeTraceOk df t nameMap typeMap fails hok
  · intro k e hk hpre he
    have htr := materializeTraceFail df t nameMap typeMap fails k e hk hpre he
    refine ⟨htr, ?_⟩
    rw [htr]
    rw [List.count_eq_zero]
    intro hmem
    rcases List.mem_cons.mp hmem with h | h
    · cases h
    rcases List.mem_cons.mp h with h2 | h2
    · cases h2
    obtain ⟨x, _, hx⟩ := List.mem_map.mp h2
    cases hx

/-- Witness for C3 at a one-column, two-row table whose second insert
fails: the trace stops after the first insert, carries no commit, and the
failure is `(2, "dup key")`. -/
theorem materialize_commit_and_row_errors_witness :
    create_table_from_dataframe ⟨["a"], [[some "1"], [some "2"]]⟩ "tbl"
        (fun _ => none) (fun _ => none)
        (fun i => if i = 1 then some "dup key" else none) =
      (Stmt.dropIfExists "tbl" ::
        Stmt.createTable "tbl" [("a", "BIGINT")] ::
        [Stmt.insertRow "tbl" ["1"]],
        some (2, "dup key")) := by
  have h := (materialize_commit_and_row_errors ⟨["a"], [[some "1"], [some "2"]]⟩ "tbl"
    (fun _ => none) (fun _ => none)
    (fun i => if i = 1 then some "dup key" else none)).2 1 "dup key"
    (by decide) (fun i hi => by
      have hz : i = 0 := by omega
      subst hz
      rfl) (by rfl)
  rw [h.1]
  decide

/-- C4: NULL cells emit the bare `NULL` keyword, BIGINT/FLOAT columns emit
the cell text unquoted, every other cell becomes a single-quoted literal
with embedded quotes doubled, and the engine's interpretation of that
literal restores the original text — in particular the cell `O'Brien`
round-trips to exactly `O'Brien`. -/
theorem materialize_value_formats :
    (∀ t : String, formatCell t none = "NULL") ∧
    (∀ v : String,
      formatCell "BIGINT" (some v) = v ∧ formatCell "FLOAT" (some v) = v) ∧
    (∀ t v, t ≠ "BIGINT" → t ≠ "FLOAT" →
      formatCell t (some v) = ⟨quoteChar :: (escapeQuotes v.data ++ [quoteChar])⟩ ∧
        unescapeQuotes (escapeQuotes v.data) = v.data) ∧
    formatCell "NVARCHAR(MAX)" (some obrien) = obrienLiteral ∧
      unescapeQuotes (escapeQuotes obrien.data) = obrien.data := by
  refine ⟨fun t => rfl, fun v => ⟨by simp [formatCell], by simp [formatCell]⟩,
    ?_, by decide, by decide⟩
  intro t v ht1 ht2
  constructor
  · unfold formatCell
    have h1 : (t == "BIGINT") = false := by simp [ht1]
    have h2 : (t == "FLOAT") = false := by simp [ht2]
    rw [h1, h2]
    rfl
  · exact unescapeEscape v.data

/-- Witness for C4's quoted-format component at type `NVARCHAR(MAX)` and
the cell `O'Brien`. -/
theorem materialize_value_formats_witness :
    formatCell "NVARCHAR(MAX)" (some obrien) =
        ⟨quoteChar :: (escapeQuotes obrien.data ++ [quoteChar])⟩ ∧
      unescapeQuotes (escapeQuotes obrien.data) = obrien.data :=
  materialize_value_formats.2.2.1 "NVARCHAR(MAX)" obrien (by decide) (by decide)

/-- C6: the sheet conversion ignores the "drop existing tables" flag; the
first emitted statement is always the drop-if-exists; and a successful
materialization forces the table to exactly this run's schema and rows from
any prior database state — so a second run over the same name leaves
exactly the second run's rows. -/
theorem materialize_always_drops :
    (∀ (b1 b2 : Bool) (df : DataFrame) (t : String)
        (nameMap typeMap : String → Option String) (fails : Nat → Option String),
      convertSheet b1 df t nameMap typeMap fails =
        convertSheet b2 df t nameMap typeMap fails) ∧
    (∀ (df : DataFrame) (t : String) (nameMap typeMap : String → Option String)
        (fails : Nat → Option String),
      (create_table_from_dataframe df t nameMap typeMap fails).1.head? =
        some (Stmt.dropIfExists t)) ∧
    ∀ (df : DataFrame) (t : String) (nameMap typeMap : String → Option String)
        (fails : Nat → Option String) (db : Database),
      (∀ i, i < df.rows.length → fails i = none) →
      execTrace (create_table_from_dataframe df t nameMap typeMap fails).1 db t =
        some (sqlColumns df nameMap typeMap, df.rows.map (formatRow df typeMap)) := by
  refine ⟨fun _ _ _ _ _ _ _ => rfl, fun df t nm tm fails => rfl, ?_⟩
  intro df t nm tm fails db hok
  rw [materializeTraceOk df t nm tm fails hok]
  show execTrace (Stmt.dropIfExists t :: Stmt.createTable t (sqlColumns df nm tm) ::
    ((df.rows.map (formatRow df tm)).map (Stmt.insertRow t) ++ [Stmt.commit])) db t = _
  simp only [execTrace, List.foldl_cons]
  rw [List.foldl_append]
  have hdb2 : (execStmt (execStmt db (Stmt.dropIfExists t))
      (Stmt.createTable t (sqlColumns df nm tm))) t =
      some (sqlColumns df nm tm, []) := by
    simp [execStmt]
  have hins := execInsertsAt t (sqlColumns df nm tm) (df.rows.map (formatRow df tm))
    (execStmt (execStmt db (Stmt.dropIfExists t))
      (Stmt.createTable t (sqlColumns df nm tm))) [] hdb2
  unfold execTrace at hins
  simp only [List.foldl_cons, List.foldl_nil]
  show (List.foldl execStmt _ (List.map (Stmt.insertRow t)
    (df.rows.map (formatRow df tm)))) t = _
  rw [hins]
  simp

/-- Witness for C6's final-state component: one successful run over a
nonempty prior state ends with exactly this run's schema and rows. -/
theorem materialize_always_drops_witness :
    execTrace (create_table_from_dataframe ⟨["n"], [[some "1"]]⟩ "t1"
        (fun _ => none) (fun _ => none) (fun _ => none)).1
        (fun k => if k = "t1" then some ([("old", "FLOAT")], [["9"], ["8"]]) else none)
        "t1" =
      some ([("n", "BIGINT")], [["1"]]) := by
  have h := materialize_always_drops.2.2 ⟨["n"], [[some "1"]]⟩ "t1"
    (fun _ => none) (fun _ => none) (fun _ => none)
    (fun k => if k = "t1" then some ([("old", "FLOAT")], [["9"], ["8"]]) else none)
    (fun i _ => rfl)
  rw [h]
  decide

/-- C7: the emitted columns are, in table order, the override rename (else
the sanitized name) paired with the override forced type (else the inferred
type); and two override stores that agree on the table's columns produce
identical traces and outcomes — overrides keyed by absent columns have no
effect. -/
theorem materialize_override_resolution (df : DataFrame) (t : String)
    (nameMap typeMap nameMap2 typeMap2 : String → Option String)
    (fails : Nat → Option String) :
    (sqlColumns df nameMap typeMap =
      df.columns.map (fun c =>
        ((nameMap c).getD c,
          match typeMap c with
          | some ty => ty
          | none => infer_column_type (colValues df c)))) ∧
    ((∀ c ∈ df.columns, nameMap c = nameMap2 c ∧ typeMap c = typeMap2 c) →
      create_table_from_dataframe df t nameMap typeMap fails =
        create_table_from_dataframe df t nameMap2 typeMap2 fails) := by
  constructor
  · rfl
  · intro hagree
    have hcols : sqlColumns df nameMap typeMap = sqlColumns df nameMap2 typeMap2 := by
      unfold sqlColumns
      apply List.map_congr_left
      intro c hc
      unfold resolveName resolveType
      rw [(hagree c hc).1, (hagree c hc).2]
    have hrows : df.rows.map (formatRow df typeMap) =
        df.rows.map (formatRow df typeMap2) := by
      apply List.map_congr_left
      intro row _
      unfold formatRow
      apply List.map_congr_left
      intro p hp
      cases p with
      | mk c cell =>
        have hc : c ∈ df.columns := (List.of_mem_zip hp).1
        unfold resolveType
        rw [(hagree c hc).2]
    unfold create_table_from_dataframe
    rw [hcols, hrows]

/-- Witness for C7's agreement component: an override store holding only a
stale entry for the absent column `ghost` yields the same result as the
empty store. -/
theorem materialize_override_resolution_witness :
    create_table_from_dataframe ⟨["a"], [[some "1"]]⟩ "t2"
        (fun c => if c = "ghost" then some "renamed" else none)
        (fun c => if c = "ghost" then some "FLOAT" else none) (fun _ => none) =
      create_table_from_dataframe ⟨["a"], [[some "1"]]⟩ "t2"
        (fun _ => none) (fun _ => none) (fun _ => none) := by
  apply (materialize_override_resolution ⟨["a"], [[some "1"]]⟩ "t2"
    (fun c => if c = "ghost" then some "renamed" else none)
    (fun c => if c = "ghost" then some "FLOAT" else none)
    (fun _ => none) (fun _ => none) (fun _ => none)).2
  intro c hc
  have hca : c = "a" := by
    rcases List.mem_cons.mp hc with h | h
    · exact h
    · cases h
  subst hca
  exact ⟨rfl, rfl⟩

/-- C5: the Reader's CSV variant as implemented accepts no delimiter and
always parses on the comma — the function signature in
src/src/file_processor.py is `get_dataframes(file_path)`, although its
callers pass `delimiter=` (src/src/gui_main.py line 550).  On the
semicolon-delimited file `a;b` / `1;2` the implemented read returns a
single comma-parsed column keyed `"sheet1"`, which differs from the spec's
semicolon read. -/
theorem get_dataframes_comma_only :
    get_dataframes ["a;b", "1;2"] =
      [("sheet1", ⟨["ab"], [[some "1;2"]]⟩)] ∧
    get_dataframes_spec ';' ["a;b", "1;2"] =
      [("sheet1", ⟨["a", "b"], [[some "1", some "2"]]⟩)] ∧
    get_dataframes ["a;b", "1;2"] ≠ get_dataframes_spec ';' ["a;b", "1;2"] := by
  refine ⟨by decide, by decide, by decide⟩
